import Mathlib

/-!
# Storage optimizer (`src/App.js`): allocator, Q-learning agent and controller

A shallow embedding of the logic of the `RLStorageOptimizer` component.

Conventions of the embedding:

* Storage amounts (`usedAmount`, container sizes, totals) are JavaScript numbers
  that only ever hold non-negative integers; they are `Nat` here.
* Other JavaScript numbers (Q-values, rewards, epsilon, the results of
  `Math.random()`) are IEEE doubles in the source and exact rationals (`ℚ`) here.
  `Math.ceil (usedAmount * 1.2)` is therefore the exact ceiling of
  `6 * usedAmount / 5`; the double computation gives the same integer for every
  `usedAmount` below `2 ^ 50`.
* React state is an explicit record `AppState`; an event handler is a function
  from the state it closes over to the state after its setters have run.
* `Math.random()`, `parseInt` and the wall clock are inputs of the handlers.
-/

namespace StorageOptimizer

/-! ## Allocator -/

/-- One container: `{ id, size, used }`. -/
structure StorageUnit where
  id : Nat
  size : Nat
  used : Nat
deriving DecidableEq, Repr

/-- The object returned by `optimizeStorage`: `{ units, total }`. -/
structure Optimized where
  units : List StorageUnit
  total : Nat
deriving DecidableEq, Repr

/-- Constant `BUFFER_PERCENT = 0.2`. -/
def BUFFER_PERCENT : ℚ := 0.2

/-- Constant `MAX_CONTAINER_SIZE = 100`. -/
def MAX_CONTAINER_SIZE : Nat := 100

/-- The loop `while (remainingStorage > 0) { ... }` of `optimizeStorage`, with its
three mutable variables as arguments. -/
def createContainers (remainingStorage containerId : Nat) (newUnits : List StorageUnit) :
    List StorageUnit :=
  if h : remainingStorage > 0 then
    let containerSize := min MAX_CONTAINER_SIZE remainingStorage
    createContainers (remainingStorage - containerSize) (containerId + 1)
      (newUnits ++ [{ id := containerId, size := containerSize, used := 0 }])
  else
    newUnits
termination_by remainingStorage
decreasing_by
  simp only [MAX_CONTAINER_SIZE]
  omega

/-- The loop `for (let unit of newUnits) { ... }` of `optimizeStorage`, threading
`remainingUsed`. -/
def distributeUsed (remainingUsed : Nat) : List StorageUnit → List StorageUnit
  | [] => []
  | unit :: rest =>
    let toUse := min remainingUsed unit.size
    { unit with used := toUse } :: distributeUsed (remainingUsed - toUse) rest

/-- The function `optimizeStorage (usedAmount)`; `baseStorage` is the component state it reads. -/
def optimizeStorage (baseStorage usedAmount : Nat) : Optimized :=
  let requiredStorage : Nat := ⌈(usedAmount : ℚ) * (1 + BUFFER_PERCENT)⌉₊
  if requiredStorage = 0 then
    { units := [{ id := 1, size := baseStorage, used := 0 }], total := baseStorage }
  else
    let newUnits := distributeUsed usedAmount (createContainers requiredStorage 1 [])
    { units := newUnits, total := newUnits.foldl (fun sum u => sum + u.size) 0 }

/-- Sum of the `size` fields. -/
def sumSizes (units : List StorageUnit) : Nat := (units.map (fun u => u.size)).sum

/-- Sum of the `used` fields. -/
def sumUsed (units : List StorageUnit) : Nat := (units.map (fun u => u.used)).sum

/-! ## State encoding, reward and Q-table -/

/-- The local `utilization` of `getState`: `Math.floor((used / total) * 100)`. -/
def getStateUtilization (used total : Nat) : Int := ⌊((used : ℚ) / (total : ℚ)) * 100⌋

/-- The local `wasteRatio` of `getState`: `Math.floor(((total - used) / total) * 100)`. -/
def getStateWasteRatio (used total : Nat) : Int :=
  ⌊(((total : ℚ) - (used : ℚ)) / (total : ℚ)) * 100⌋

/-- The function `getState (used, total)`: the key built from the two floored percentages. -/
def getState (used total : Nat) : String :=
  let utilization := getStateUtilization used total
  let wasteRatio := getStateWasteRatio used total
  s!"u{utilization}_w{wasteRatio}"

/-- Constant `actions = [0, 1, 2]`. -/
def actions : List Nat := [0, 1, 2]

/-- Constant `learningRate = 0.1`. -/
def learningRate : ℚ := 0.1

/-- Constant `discountFactor = 0.95`. -/
def discountFactor : ℚ := 0.95

/-- Constant `epsilonDecay = 0.995`. -/
def epsilonDecay : ℚ := 0.995

/-- The Q-table object: a state key maps to a row object, a row maps an action to a number;
`none` is an absent property. -/
abbrev QTable := String → Option (Nat → Option ℚ)

/-- The function `getQValue (state, action)`; `qTable` is the component state it reads.
`x || 0` is `0` for an absent entry and `x` otherwise (a stored `0` is also `0`). -/
def getQValue (qTable : QTable) (state : String) (action : Nat) : ℚ :=
  match qTable state with
  | none => 0
  | some row => (row action).getD 0

/-- The function `calculateReward (used, total, prevTotal)`. -/
def calculateReward (used total prevTotal : ℚ) : ℚ :=
  let utilization := used / total
  let waste := (total - used) / total
  let reward : ℚ := 0
  let reward :=
    if utilization ≥ 0.6 ∧ utilization ≤ 0.9 then reward + 10
    else if utilization < 0.3 then reward - 15
    else if utilization > 0.95 then reward - 10
    else reward
  let reward := reward - waste * 5
  let reward := if total > prevTotal then reward - 2 else reward
  let reward := if total < prevTotal ∧ utilization > 0.5 then reward + 5 else reward
  reward

/-- One iteration of the loop of `selectAction`: the pair is `(bestAction, bestValue)`. -/
def selectActionStep (qTable : QTable) (state : String) (best : Nat × ℚ) (i : Nat) : Nat × ℚ :=
  let value := getQValue qTable state i
  if value > best.2 then (i, value) else best

/-- The function `selectAction (state)`; `qTable` and `epsilon` are the component state it reads,
`random1` and `random2` are the results of its two `Math.random()` calls (numbers in `[0, 1)`,
so the index into `actions` is in range and the default of `getD` is never taken). -/
def selectAction (qTable : QTable) (epsilon random1 random2 : ℚ) (state : String) : Nat :=
  if random1 < epsilon then
    actions.getD ⌊random2 * (actions.length : ℚ)⌋₊ 0
  else
    ((List.range' 1 (actions.length - 1)).foldl (selectActionStep qTable state)
      (0, getQValue qTable state 0)).1

/-- Built-in `Math.max(...values)` on a non-empty argument list (the only use in the source has three
arguments; the empty case is not reached). -/
def mathMax : List ℚ → ℚ
  | [] => 0
  | x :: xs => xs.foldl max x

/-- The function `updateQTable (state, action, reward, nextState)`: the table after
`setQTable (prev => ({ ...prev, [state]: { ...prev[state], [action]: newQ } }))`, where the table
read by `getQValue` and `prev` are the same table. -/
def updateQTable (qTable : QTable) (state : String) (action : Nat) (reward : ℚ)
    (nextState : String) : QTable :=
  let currentQ := getQValue qTable state action
  let maxNextQ := mathMax (actions.map (fun a => getQValue qTable nextState a))
  let newQ := currentQ + learningRate * (reward + discountFactor * maxNextQ - currentQ)
  fun key =>
    if key = state then
      some (fun a => if a = action then some newQ else (qTable state).bind (fun row => row a))
    else qTable key

/-! ## Component state and event handlers -/

/-- One record of the `metrics` log. `utilization` is the number before `.toFixed(1)`. -/
structure MetricsRecord where
  episode : Nat
  reward : ℚ
  utilization : ℚ
  storage : Nat
  waste : Int
deriving DecidableEq

/-- One record of the `history` log. `utilization` is the number before `.toFixed(1)`. -/
structure HistoryEntry where
  time : String
  action : String
  type : String
  utilization : ℚ
deriving DecidableEq

/-- The `useState` cells of `RLStorageOptimizer`. -/
structure AppState where
  baseStorage : Nat
  currentStorage : Nat
  usedStorage : Nat
  storageUnits : List StorageUnit
  requestValue : String
  isTraining : Bool
  episode : Nat
  totalReward : ℚ
  metrics : List MetricsRecord
  history : List HistoryEntry
  qTable : QTable
  epsilon : ℚ

/-- The initial values given to `useState`. -/
def initialState : AppState where
  baseStorage := 50
  currentStorage := 50
  usedStorage := 0
  storageUnits := [{ id := 1, size := 50, used := 0 }]
  requestValue := ""
  isTraining := false
  episode := 0
  totalReward := 0
  metrics := []
  history := []
  qTable := fun _ => none
  epsilon := 0.3

/-- The four `Math.random()` results read by one training step, in source order: the
exploration test and the random action of `selectAction`, the test `Math.random() > 0.5`, and
the draw of `change`. -/
structure TrainDraws where
  explore : ℚ
  pick : ℚ
  perturb : ℚ
  change : ℚ

/-- The function `trainStep ()` (the interval callback of the auto-training effect has the same
body). -/
def trainStep (draws : TrainDraws) (s : AppState) : AppState :=
  let prevTotal := s.currentStorage
  let state := getState s.usedStorage s.currentStorage
  let action := selectAction s.qTable s.epsilon draws.explore draws.pick state
  let newUsedStorage : Nat :=
    if draws.perturb > 0.5 then
      let change : Int := ⌊draws.change * 20⌋ - 5
      (max 0 ((s.usedStorage : Int) + change)).toNat
    else s.usedStorage
  let optimized := optimizeStorage s.baseStorage newUsedStorage
  let nextState := getState newUsedStorage optimized.total
  let reward := calculateReward newUsedStorage optimized.total prevTotal
  { s with
    qTable := updateQTable s.qTable state action reward nextState
    usedStorage := newUsedStorage
    currentStorage := optimized.total
    storageUnits := optimized.units
    totalReward := s.totalReward + reward
    epsilon := max 0.01 (s.epsilon * epsilonDecay)
    episode := s.episode + 1
    metrics :=
      let next := s.metrics ++ [{
        episode := s.episode
        reward := reward
        utilization := ((newUsedStorage : ℚ) / (optimized.total : ℚ)) * 100
        storage := optimized.total
        waste := (optimized.total : Int) - (newUsedStorage : Int) }]
      next.drop (next.length - 50) }

/-- The state after a sequence of training steps from the initial state. -/
def runTraining (draws : List TrainDraws) : AppState :=
  draws.foldl (fun s d => trainStep d s) initialState

/-- The function `addHistory (action, type)`: `closure` is the state the handler closed over
(its `usedStorage` and `currentStorage` are read), `time` is `new Date().toLocaleTimeString()`,
`s` is the state being updated. -/
def addHistory (closure : AppState) (time action type : String) (s : AppState) : AppState :=
  { s with
    history := ({
      time := time
      action := action
      type := type
      utilization := ((closure.usedStorage : ℚ) / (closure.currentStorage : ℚ)) * 100
    } :: s.history).take 10 }

/-- The function `handleAddStorage ()`. `parseInt` is the JavaScript built-in, `none` being
`NaN`. -/
def handleAddStorage (parseInt : String → Option Int) (time : String) (s : AppState) :
    AppState :=
  match parseInt s.requestValue with
  | none => s
  | some value =>
    if value ≤ 0 then s
    else
      let newUsedStorage : Nat := ((s.usedStorage : Int) + value).toNat
      let optimized := optimizeStorage s.baseStorage newUsedStorage
      let total := optimized.total
      addHistory s time s!"Added {value} GB storage, optimized to {total} GB" "add"
        { s with
          usedStorage := newUsedStorage
          currentStorage := optimized.total
          storageUnits := optimized.units
          requestValue := "" }

/-- The function `handleRemoveStorage ()`. -/
def handleRemoveStorage (parseInt : String → Option Int) (time : String) (s : AppState) :
    AppState :=
  match parseInt s.requestValue with
  | none => s
  | some value =>
    if value ≤ 0 ∨ value > (s.usedStorage : Int) then s
    else
      let newUsedStorage : Nat := (max 0 ((s.usedStorage : Int) - value)).toNat
      let optimized := optimizeStorage s.baseStorage newUsedStorage
      let total := optimized.total
      addHistory s time s!"Removed {value} GB, optimized to {total} GB" "remove"
        { s with
          usedStorage := newUsedStorage
          currentStorage := optimized.total
          storageUnits := optimized.units
          requestValue := "" }

/-- The `onChange` handler of the base-storage input: `value` is `e.target.value`; `x || 50`
is `50` when `parseInt` gives `NaN` or `0`. -/
def handleBaseStorageChange (parseInt : String → Option Int) (value : String) (s : AppState) :
    AppState :=
  let parsed : Int :=
    match parseInt value with
    | none => 50
    | some v => if v = 0 then 50 else v
  let newBase : Nat := (max 10 (min 100 parsed)).toNat
  if s.usedStorage = 0 then
    { s with
      baseStorage := newBase
      currentStorage := newBase
      storageUnits := [{ id := 1, size := newBase, used := 0 }] }
  else
    { s with baseStorage := newBase }

/-- The function `reset ()`. -/
def reset (s : AppState) : AppState :=
  let optimized := optimizeStorage s.baseStorage 0
  { s with
    usedStorage := 0
    currentStorage := optimized.total
    storageUnits := optimized.units
    episode := 0
    totalReward := 0
    metrics := []
    history := []
    qTable := fun _ => none
    epsilon := 0.3
    isTraining := false }

/-- The state after `n` calls `updateQTable (state, action, reward, nextState)` with the same
arguments. -/
def repeatUpdate (state : String) (action : Nat) (reward : ℚ) (nextState : String) :
    Nat → QTable → QTable
  | 0, qTable => qTable
  | n + 1, qTable =>
    updateQTable (repeatUpdate state action reward nextState n qTable) state action reward
      nextState

/-- A decimal reading of `parseInt` on plain digit strings, used to run the handlers on
concrete inputs. -/
def parseIntDigits (str : String) : Option Int :=
  if str.data = [] ∨ ¬ str.data.all Char.isDigit then none
  else some (str.data.foldl (fun n c => 10 * n + ((c.toNat - 48 : Nat) : Int)) 0)

/-- A state with 20 GB in use (one unit of size 24) and the request field holding `"30"`. -/
def stateUsed20 : AppState :=
  { initialState with
    usedStorage := 20
    currentStorage := 24
    storageUnits := [{ id := 1, size := 24, used := 20 }]
    requestValue := "30" }

/-- The state reached from the initial state by typing `"80"` into the base-storage input. -/
def stateBase80 : AppState :=
  handleBaseStorageChange parseIntDigits "80" initialState

/-! ## Allocator lemmas -/

theorem requiredStorage_eq (usedAmount : Nat) :
    ⌈(usedAmount : ℚ) * (1 + BUFFER_PERCENT)⌉₊ = (6 * usedAmount + 4) / 5 := by
  have hq : (usedAmount : ℚ) * (1 + BUFFER_PERCENT) = (6 * usedAmount : ℚ) / 5 := by
    unfold BUFFER_PERCENT; ring
  rw [hq]
  apply le_antisymm
  · rw [Nat.ceil_le, div_le_iff₀ (by norm_num)]
    have h : 6 * usedAmount ≤ (6 * usedAmount + 4) / 5 * 5 := by omega
    exact_mod_cast h
  · rcases Nat.eq_zero_or_pos ((6 * usedAmount + 4) / 5) with h0 | hpos
    · rw [h0]; exact Nat.zero_le _
    · apply Nat.le_of_pred_lt
      rw [Nat.pred_eq_sub_one, Nat.lt_ceil, lt_div_iff₀ (by norm_num)]
      have h : ((6 * usedAmount + 4) / 5 - 1) * 5 < 6 * usedAmount := by omega
      exact_mod_cast h

theorem optimizeStorage_eq (baseStorage usedAmount : Nat) :
    optimizeStorage baseStorage usedAmount
      = if (6 * usedAmount + 4) / 5 = 0 then
          { units := [{ id := 1, size := baseStorage, used := 0 }], total := baseStorage }
        else
          { units := distributeUsed usedAmount (createContainers ((6 * usedAmount + 4) / 5) 1 []),
            total := (distributeUsed usedAmount
              (createContainers ((6 * usedAmount + 4) / 5) 1 [])).foldl
                (fun sum u => sum + u.size) 0 } := by
  unfold optimizeStorage
  rw [requiredStorage_eq]

theorem createContainers_sumSizes (remainingStorage containerId : Nat)
    (newUnits : List StorageUnit) :
    sumSizes (createContainers remainingStorage containerId newUnits)
      = sumSizes newUnits + remainingStorage := by
  induction remainingStorage using Nat.strong_induction_on generalizing containerId newUnits with
  | _ n ih =>
    rw [createContainers]
    split
    · rename_i h
      simp only []
      rw [ih _ (by simp only [MAX_CONTAINER_SIZE]; omega)]
      simp only [sumSizes, List.map_append, List.sum_append, List.map_cons, List.map_nil,
        List.sum_cons, List.sum_nil, MAX_CONTAINER_SIZE]
      omega
    · rename_i h
      simp only [sumSizes]
      omega

theorem createContainers_bounds (remainingStorage containerId : Nat)
    (newUnits : List StorageUnit) :
    ∀ u ∈ createContainers remainingStorage containerId newUnits,
      u ∈ newUnits ∨ (1 ≤ u.size ∧ u.size ≤ 100) := by
  induction remainingStorage using Nat.strong_induction_on generalizing containerId newUnits with
  | _ n ih =>
    rw [createContainers]
    split
    · rename_i h
      intro u hu
      simp only [] at hu
      rcases ih _ (by simp only [MAX_CONTAINER_SIZE]; omega) _ _ u hu with hmem | hb
      · rcases List.mem_append.mp hmem with h1 | h2
        · exact Or.inl h1
        · right
          rw [List.mem_singleton] at h2
          subst h2
          simp only [MAX_CONTAINER_SIZE]
          omega
      · exact Or.inr hb
    · intro u hu
      exact Or.inl hu

theorem distributeUsed_sumSizes (remainingUsed : Nat) (units : List StorageUnit) :
    sumSizes (distributeUsed remainingUsed units) = sumSizes units := by
  induction units generalizing remainingUsed with
  | nil => rfl
  | cons unit rest ih =>
    have := ih (remainingUsed - min remainingUsed unit.size)
    simp only [sumSizes, distributeUsed, List.map_cons, List.sum_cons] at this ⊢
    omega

theorem distributeUsed_sumUsed (remainingUsed : Nat) (units : List StorageUnit) :
    sumUsed (distributeUsed remainingUsed units) = min remainingUsed (sumSizes units) := by
  induction units generalizing remainingUsed with
  | nil => simp [sumUsed, sumSizes, distributeUsed]
  | cons unit rest ih =>
    have := ih (remainingUsed - min remainingUsed unit.size)
    simp only [sumUsed, sumSizes, distributeUsed, List.map_cons, List.sum_cons] at this ⊢
    omega

theorem distributeUsed_bounds (remainingUsed : Nat) (units : List StorageUnit) :
    ∀ u ∈ distributeUsed remainingUsed units,
      u.used ≤ u.size ∧ ∃ v ∈ units, u.size = v.size := by
  induction units generalizing remainingUsed with
  | nil => intro u hu; simp [distributeUsed] at hu
  | cons unit rest ih =>
    intro u hu
    simp only [distributeUsed, List.mem_cons] at hu
    rcases hu with rfl | hu
    · exact ⟨Nat.min_le_right _ _, unit, List.mem_cons_self _ _, rfl⟩
    · obtain ⟨h1, v, hv, h2⟩ := ih _ u hu
      exact ⟨h1, v, List.mem_cons_of_mem _ hv, h2⟩

theorem foldl_size_eq (units : List StorageUnit) (init : Nat) :
    units.foldl (fun sum u => sum + u.size) init = init + sumSizes units := by
  induction units generalizing init with
  | nil => simp [sumSizes]
  | cons unit rest ih =>
    simp only [List.foldl_cons, ih, sumSizes, List.map_cons, List.sum_cons]
    omega

/-- In the non-idle branch the reported total is exactly the buffered requirement. -/
theorem optimizeStorage_total (baseStorage usedAmount : Nat) :
    (optimizeStorage baseStorage usedAmount).total
      = if (6 * usedAmount + 4) / 5 = 0 then baseStorage else (6 * usedAmount + 4) / 5 := by
  rw [optimizeStorage_eq]
  split
  · rfl
  · simp only [foldl_size_eq, distributeUsed_sumSizes, createContainers_sumSizes]
    simp [sumSizes]

theorem optimizeStorage_sumSizes (baseStorage usedAmount : Nat) :
    sumSizes (optimizeStorage baseStorage usedAmount).units
      = (optimizeStorage baseStorage usedAmount).total := by
  rw [optimizeStorage_eq]
  split
  · simp [sumSizes]
  · simp only [foldl_size_eq]
    omega

theorem optimizeStorage_sumUsed (baseStorage usedAmount : Nat) :
    sumUsed (optimizeStorage baseStorage usedAmount).units = usedAmount := by
  rw [optimizeStorage_eq]
  split
  · rename_i h
    simp only [sumUsed, List.map_cons, List.map_nil, List.sum_cons, List.sum_nil]
    omega
  · simp only [distributeUsed_sumUsed, createContainers_sumSizes]
    simp only [sumSizes, List.map_nil, List.sum_nil]
    omega

theorem optimizeStorage_units_bounds (baseStorage usedAmount : Nat)
    (hlo : 1 ≤ baseStorage) (hhi : baseStorage ≤ 100) :
    ∀ u ∈ (optimizeStorage baseStorage usedAmount).units,
      1 ≤ u.size ∧ u.size ≤ 100 ∧ u.used ≤ u.size := by
  rw [optimizeStorage_eq]
  split
  · intro u hu
    simp only [List.mem_singleton] at hu
    subst hu
    exact ⟨hlo, hhi, Nat.zero_le _⟩
  · intro u hu
    obtain ⟨h1, v, hv, h2⟩ := distributeUsed_bounds _ _ u hu
    rcases createContainers_bounds _ _ _ v hv with hnil | hb
    · simp at hnil
    · exact ⟨h2 ▸ hb.1, h2 ▸ hb.2, h1⟩

theorem optimizeStorage_150 (baseStorage : Nat) :
    optimizeStorage baseStorage 150
      = { units := [{ id := 1, size := 100, used := 100 }, { id := 2, size := 80, used := 50 }],
          total := 180 } := by
  rw [optimizeStorage_eq]
  simp [createContainers, MAX_CONTAINER_SIZE, distributeUsed]

theorem optimizeStorage_80 (baseStorage : Nat) :
    optimizeStorage baseStorage 80
      = { units := [{ id := 1, size := 96, used := 80 }], total := 96 } := by
  rw [optimizeStorage_eq]
  simp [createContainers, MAX_CONTAINER_SIZE, distributeUsed]

theorem bucket_bounds (x : ℚ) (h0 : 0 ≤ x) (h1 : x ≤ 1) :
    0 ≤ ⌊x * 100⌋ ∧ ⌊x * 100⌋ ≤ 100 := by
  constructor
  · exact Int.floor_nonneg.mpr (by positivity)
  · have h : ⌊x * 100⌋ < 101 := by
      rw [Int.floor_lt]
      push_cast
      linarith
    omega

/-! ## Allocator claims -/

/-- C1 (packing completeness): for every `usedAmount ≥ 0` and base unit size in `[10, 100]`,
the sizes of the returned units sum to the returned total and their `used` values sum to
`usedAmount` (so to `0` in the idle case); `usedAmount = 150` gives sizes `[100, 80]`, used
`[100, 50]`, total `180`. -/
theorem packing_completeness (baseStorage usedAmount : Nat)
    (_hlo : 10 ≤ baseStorage) (_hhi : baseStorage ≤ 100) :
    sumSizes (optimizeStorage baseStorage usedAmount).units
        = (optimizeStorage baseStorage usedAmount).total
      ∧ sumUsed (optimizeStorage baseStorage usedAmount).units = usedAmount
      ∧ (usedAmount = 0 → sumUsed (optimizeStorage baseStorage usedAmount).units = 0)
      ∧ (optimizeStorage baseStorage 150).units.map (fun u => u.size) = [100, 80]
      ∧ (optimizeStorage baseStorage 150).units.map (fun u => u.used) = [100, 50]
      ∧ (optimizeStorage baseStorage 150).total = 180 := by
  refine ⟨optimizeStorage_sumSizes _ _, optimizeStorage_sumUsed _ _, ?_, ?_, ?_, ?_⟩
  · intro h
    rw [optimizeStorage_sumUsed, h]
  · rw [optimizeStorage_150]; rfl
  · rw [optimizeStorage_150]; rfl
  · rw [optimizeStorage_150]

theorem packing_completeness_witness :
    (10 ≤ 50 ∧ 50 ≤ 100)
      ∧ sumSizes (optimizeStorage 50 150).units = (optimizeStorage 50 150).total
      ∧ sumUsed (optimizeStorage 50 150).units = 150
      ∧ ((150 : Nat) = 0 → sumUsed (optimizeStorage 50 150).units = 0)
      ∧ (optimizeStorage 50 150).units.map (fun u => u.size) = [100, 80]
      ∧ (optimizeStorage 50 150).units.map (fun u => u.used) = [100, 50]
      ∧ (optimizeStorage 50 150).total = 180 :=
  ⟨by decide, packing_completeness 50 150 (by decide) (by decide)⟩

/-- C2 (container bound): for every `usedAmount ≥ 0` and base unit size in `[10, 100]`, every
returned unit has `1 ≤ size ≤ 100` and `0 ≤ used ≤ size`. -/
theorem container_bound (baseStorage usedAmount : Nat)
    (hlo : 10 ≤ baseStorage) (hhi : baseStorage ≤ 100) :
    ∀ u ∈ (optimizeStorage baseStorage usedAmount).units,
      1 ≤ u.size ∧ u.size ≤ 100 ∧ 0 ≤ u.used ∧ u.used ≤ u.size := by
  intro u hu
  obtain ⟨h1, h2, h3⟩ :=
    optimizeStorage_units_bounds baseStorage usedAmount (by omega) hhi u hu
  exact ⟨h1, h2, Nat.zero_le _, h3⟩

theorem container_bound_witness :
    (10 ≤ 50 ∧ 50 ≤ 100)
      ∧ ∀ u ∈ (optimizeStorage 50 150).units,
          1 ≤ u.size ∧ u.size ≤ 100 ∧ 0 ≤ u.used ∧ u.used ≤ u.size :=
  ⟨by decide, container_bound 50 150 (by decide) (by decide)⟩

/-- C3 (buffer guarantee): for every `usedAmount > 0` the returned total is at least
`ceil (usedAmount * 1.2)` and exceeds it by less than `100`; `usedAmount = 80` gives one unit of
size `96`, used `80`, total `96`. -/
theorem buffer_guarantee (baseStorage usedAmount : Nat) (hpos : 0 < usedAmount) :
    ⌈(usedAmount : ℚ) * 1.2⌉₊ ≤ (optimizeStorage baseStorage usedAmount).total
      ∧ (optimizeStorage baseStorage usedAmount).total - ⌈(usedAmount : ℚ) * 1.2⌉₊ < 100
      ∧ optimizeStorage baseStorage 80
          = { units := [{ id := 1, size := 96, used := 80 }], total := 96 } := by
  have hc : ⌈(usedAmount : ℚ) * 1.2⌉₊ = (6 * usedAmount + 4) / 5 := by
    rw [← requiredStorage_eq]
    congr 1
    unfold BUFFER_PERCENT
    norm_num
  rw [hc, optimizeStorage_total]
  have hne : ¬ (6 * usedAmount + 4) / 5 = 0 := by omega
  rw [if_neg hne]
  exact ⟨le_refl _, by omega, optimizeStorage_80 _⟩

theorem buffer_guarantee_witness :
    0 < 80
      ∧ ⌈((80 : Nat) : ℚ) * 1.2⌉₊ ≤ (optimizeStorage 50 80).total
      ∧ (optimizeStorage 50 80).total - ⌈((80 : Nat) : ℚ) * 1.2⌉₊ < 100
      ∧ optimizeStorage 50 80
          = { units := [{ id := 1, size := 96, used := 80 }], total := 96 } :=
  ⟨by decide, buffer_guarantee 50 80 (by decide)⟩

/-- C10 (state encoding on allocator output): for every `usedAmount ≥ 0` and base unit size in
`[10, 100]` the returned total is positive and at least `usedAmount`, so the divisor in
`getState (usedAmount, total)` is not zero and both of its buckets are integers in `0..100`. -/
theorem getState_total_pos (baseStorage usedAmount : Nat)
    (hlo : 10 ≤ baseStorage) (_hhi : baseStorage ≤ 100) :
    0 < (optimizeStorage baseStorage usedAmount).total
      ∧ usedAmount ≤ (optimizeStorage baseStorage usedAmount).total
      ∧ ((optimizeStorage baseStorage usedAmount).total : ℚ) ≠ 0
      ∧ 0 ≤ getStateUtilization usedAmount (optimizeStorage baseStorage usedAmount).total
      ∧ getStateUtilization usedAmount (optimizeStorage baseStorage usedAmount).total ≤ 100
      ∧ 0 ≤ getStateWasteRatio usedAmount (optimizeStorage baseStorage usedAmount).total
      ∧ getStateWasteRatio usedAmount (optimizeStorage baseStorage usedAmount).total ≤ 100 := by
  have hpos : 0 < (optimizeStorage baseStorage usedAmount).total := by
    rw [optimizeStorage_total]
    split <;> omega
  have hle : usedAmount ≤ (optimizeStorage baseStorage usedAmount).total := by
    rw [optimizeStorage_total]
    split <;> omega
  generalize (optimizeStorage baseStorage usedAmount).total = total at hpos hle
  have hq : (0 : ℚ) < (total : ℚ) := by exact_mod_cast hpos
  have hq2 : (usedAmount : ℚ) ≤ (total : ℚ) := by exact_mod_cast hle
  have hu := bucket_bounds ((usedAmount : ℚ) / (total : ℚ)) (by positivity)
    ((div_le_one hq).mpr hq2)
  have hw := bucket_bounds (((total : ℚ) - (usedAmount : ℚ)) / (total : ℚ))
    (div_nonneg (by linarith) hq.le) ((div_le_one hq).mpr (by linarith [(Nat.cast_nonneg usedAmount : (0 : ℚ) ≤ usedAmount)]))
  exact ⟨hpos, hle, hq.ne', hu.1, hu.2, hw.1, hw.2⟩

theorem getState_total_pos_witness :
    (10 ≤ 50 ∧ 50 ≤ 100)
      ∧ 0 < (optimizeStorage 50 150).total
      ∧ 150 ≤ (optimizeStorage 50 150).total
      ∧ ((optimizeStorage 50 150).total : ℚ) ≠ 0
      ∧ 0 ≤ getStateUtilization 150 (optimizeStorage 50 150).total
      ∧ getStateUtilization 150 (optimizeStorage 50 150).total ≤ 100
      ∧ 0 ≤ getStateWasteRatio 150 (optimizeStorage 50 150).total
      ∧ getStateWasteRatio 150 (optimizeStorage 50 150).total ≤ 100 :=
  ⟨by decide, getState_total_pos 50 150 (by decide) (by decide)⟩

/-! ## Q-table lemmas -/

theorem mathMax_actions (qTable : QTable) (nextState : String) :
    mathMax (actions.map (fun a => getQValue qTable nextState a))
      = max (max (getQValue qTable nextState 0) (getQValue qTable nextState 1))
          (getQValue qTable nextState 2) := rfl

theorem getQValue_update_same (qTable : QTable) (state nextState : String) (action : Nat)
    (reward : ℚ) :
    getQValue (updateQTable qTable state action reward nextState) state action
      = getQValue qTable state action
        + learningRate * (reward + discountFactor
            * mathMax (actions.map (fun a => getQValue qTable nextState a))
          - getQValue qTable state action) := by
  simp [getQValue, updateQTable]

theorem getQValue_update_other (qTable : QTable) (state nextState : String) (action : Nat)
    (reward : ℚ) (state2 : String) (action2 : Nat) (h : state2 ≠ state ∨ action2 ≠ action) :
    getQValue (updateQTable qTable state action reward nextState) state2 action2
      = getQValue qTable state2 action2 := by
  unfold updateQTable getQValue
  by_cases hs : state2 = state
  · subst hs
    have ha : action2 ≠ action := by
      rcases h with h | h
      · exact absurd rfl h
      · exact h
    simp only [if_true, if_neg ha]
    cases qTable state2 <;> rfl
  · simp only [if_neg hs]

/-! ## Learner claims -/

/-- C4 (Q-update rule): after `updateQTable (s, a, r, s')` with `a` in `{0, 1, 2}` the value of
`(s, a)` is `Q(s,a) + 0.1 * (r + 0.95 * max over a' in {0,1,2} of Q(s',a') - Q(s,a))`, where `Q`
is the table before the update and unseen pairs count as `0`; the value of every other
(state, action) pair is unchanged. -/
theorem q_update_rule (qTable : QTable) (s s' : String) (a : Nat) (r : ℚ) (_ha : a ∈ actions) :
    getQValue (updateQTable qTable s a r s') s a
        = getQValue qTable s a
          + 0.1 * (r + 0.95 * max (max (getQValue qTable s' 0) (getQValue qTable s' 1))
              (getQValue qTable s' 2) - getQValue qTable s a)
      ∧ ∀ (s2 : String) (a2 : Nat), (s2 ≠ s ∨ a2 ≠ a) →
          getQValue (updateQTable qTable s a r s') s2 a2 = getQValue qTable s2 a2 := by
  refine ⟨?_, fun s2 a2 h => getQValue_update_other qTable s s' a r s2 a2 h⟩
  rw [getQValue_update_same, mathMax_actions]
  rfl

theorem q_update_rule_witness :
    1 ∈ actions
      ∧ getQValue (updateQTable (fun _ => none) "u0_w100" 1 8 "u83_w16") "u0_w100" 1
        = getQValue (fun _ => none) "u0_w100" 1
          + 0.1 * (8 + 0.95 * max (max (getQValue (fun _ => none) "u83_w16" 0)
              (getQValue (fun _ => none) "u83_w16" 1))
              (getQValue (fun _ => none) "u83_w16" 2) - getQValue (fun _ => none) "u0_w100" 1)
      ∧ ∀ (s2 : String) (a2 : Nat), (s2 ≠ "u0_w100" ∨ a2 ≠ 1) →
          getQValue (updateQTable (fun _ => none) "u0_w100" 1 8 "u83_w16") s2 a2
            = getQValue (fun _ => none) s2 a2 :=
  ⟨by decide, q_update_rule (fun _ => none) "u0_w100" "u83_w16" 1 8 (by decide)⟩

/-- C5 (reward function): for `total > 0`, `calculateReward (used, total, prevTotal)` is
`base - 5 * (total - used) / total - (2 if total > prevTotal) + (5 if total < prevTotal and
used / total > 0.5)`, where `base` is `10` on `[0.6, 0.9]`, `-15` below `0.3`, `-10` above `0.95`
and `0` otherwise, in particular on `[0.3, 0.6)` and on `(0.9, 0.95]`. -/
theorem reward_components (used total prevTotal : ℚ) (_htotal : 0 < total) :
    ∃ base : ℚ,
      (0.6 ≤ used / total ∧ used / total ≤ 0.9 → base = 10)
      ∧ (used / total < 0.3 → base = -15)
      ∧ (used / total > 0.95 → base = -10)
      ∧ (0.3 ≤ used / total ∧ used / total < 0.6 → base = 0)
      ∧ (0.9 < used / total ∧ used / total ≤ 0.95 → base = 0)
      ∧ calculateReward used total prevTotal
          = base - 5 * (total - used) / total
            - (if total > prevTotal then 2 else 0)
            + (if total < prevTotal ∧ used / total > 0.5 then 5 else 0) := by
  refine ⟨if 0.6 ≤ used / total ∧ used / total ≤ 0.9 then 10
      else if used / total < 0.3 then -15 else if used / total > 0.95 then -10 else 0,
    ?_, ?_, ?_, ?_, ?_, ?_⟩
  · intro h
    rw [if_pos h]
  · intro h
    rw [if_neg (by intro h2; norm_num at h h2 ⊢; linarith [h2.1]), if_pos h]
  · intro h
    rw [if_neg (by intro h2; norm_num at h h2 ⊢; linarith [h2.2]),
      if_neg (by norm_num at h ⊢; linarith), if_pos h]
  · intro h
    rw [if_neg (by intro h2; norm_num at h h2 ⊢; linarith [h2.1, h.2]),
      if_neg (by norm_num at h ⊢; linarith [h.1]),
      if_neg (by norm_num at h ⊢; linarith [h.2])]
  · intro h
    rw [if_neg (by intro h2; norm_num at h h2 ⊢; linarith [h2.2, h.1]),
      if_neg (by norm_num at h ⊢; linarith [h.1]),
      if_neg (by norm_num at h ⊢; linarith [h.2])]
  · unfold calculateReward
    simp only [ge_iff_le, gt_iff_lt]
    split_ifs <;> ring

theorem reward_components_witness :
    (0 : ℚ) < 96
      ∧ (∃ base : ℚ,
      (0.6 ≤ (80 : ℚ) / 96 ∧ (80 : ℚ) / 96 ≤ 0.9 → base = 10)
      ∧ ((80 : ℚ) / 96 < 0.3 → base = -15)
      ∧ ((80 : ℚ) / 96 > 0.95 → base = -10)
      ∧ (0.3 ≤ (80 : ℚ) / 96 ∧ (80 : ℚ) / 96 < 0.6 → base = 0)
      ∧ (0.9 < (80 : ℚ) / 96 ∧ (80 : ℚ) / 96 ≤ 0.95 → base = 0)
      ∧ calculateReward 80 96 50
          = base - 5 * (96 - 80) / 96
            - (if (96 : ℚ) > 50 then 2 else 0)
            + (if (96 : ℚ) < 50 ∧ (80 : ℚ) / 96 > 0.5 then 5 else 0))
      ∧ calculateReward 80 96 50 = 43 / 6 :=
  ⟨by norm_num, reward_components 80 96 50 (by norm_num), by norm_num [calculateReward]⟩

/-- C6 (greedy action selection): whenever the exploration draw is not below epsilon,
`selectAction` returns an action in `{0, 1, 2}` whose Q-value for the state is at least that of
each of the three actions, no action with a smaller index has the same value, and an unseen
state yields action `0`. -/
theorem greedy_selection (qTable : QTable) (epsilon random1 random2 : ℚ) (state : String)
    (hgreedy : ¬ random1 < epsilon) :
    selectAction qTable epsilon random1 random2 state ∈ actions
      ∧ (∀ i ∈ actions, getQValue qTable state i
          ≤ getQValue qTable state (selectAction qTable epsilon random1 random2 state))
      ∧ (∀ j, j < selectAction qTable epsilon random1 random2 state →
          getQValue qTable state j
            < getQValue qTable state (selectAction qTable epsilon random1 random2 state))
      ∧ (qTable state = none → selectAction qTable epsilon random1 random2 state = 0) := by
  have hsel : selectAction qTable epsilon random1 random2 state
      = (selectActionStep qTable state
          (selectActionStep qTable state (0, getQValue qTable state 0) 1) 2).1 := by
    unfold selectAction
    rw [if_neg hgreedy]
    rfl
  rw [hsel]
  have hmem : ∀ i ∈ actions, i = 0 ∨ i = 1 ∨ i = 2 := fun i hi => by simpa [actions] using hi
  by_cases h1 : getQValue qTable state 0 < getQValue qTable state 1
  · by_cases h2 : getQValue qTable state 1 < getQValue qTable state 2
    · have hres : (selectActionStep qTable state
          (selectActionStep qTable state (0, getQValue qTable state 0) 1) 2).1 = 2 := by
        simp [selectActionStep, h1, h2]
      rw [hres]
      refine ⟨by simp [actions], ?_, ?_, ?_⟩
      · intro i hi
        rcases hmem i hi with rfl | rfl | rfl <;> linarith
      · intro j hj
        interval_cases j <;> linarith
      · intro hnone
        simp [getQValue, hnone] at h1
    · have hres : (selectActionStep qTable state
          (selectActionStep qTable state (0, getQValue qTable state 0) 1) 2).1 = 1 := by
        simp [selectActionStep, h1, h2]
      rw [hres]
      refine ⟨by simp [actions], ?_, ?_, ?_⟩
      · intro i hi
        rcases hmem i hi with rfl | rfl | rfl <;> linarith
      · intro j hj
        interval_cases j
        linarith
      · intro hnone
        simp [getQValue, hnone] at h1
  · by_cases h2 : getQValue qTable state 0 < getQValue qTable state 2
    · have hres : (selectActionStep qTable state
          (selectActionStep qTable state (0, getQValue qTable state 0) 1) 2).1 = 2 := by
        simp [selectActionStep, h1, h2]
      rw [hres]
      refine ⟨by simp [actions], ?_, ?_, ?_⟩
      · intro i hi
        rcases hmem i hi with rfl | rfl | rfl <;> linarith
      · intro j hj
        interval_cases j <;> linarith
      · intro hnone
        simp [getQValue, hnone] at h2
    · have hres : (selectActionStep qTable state
          (selectActionStep qTable state (0, getQValue qTable state 0) 1) 2).1 = 0 := by
        simp [selectActionStep, h1, h2]
      rw [hres]
      refine ⟨by simp [actions], ?_, ?_, ?_⟩
      · intro i hi
        rcases hmem i hi with rfl | rfl | rfl <;> linarith
      · intro j hj
        exact absurd hj (Nat.not_lt_zero j)
      · intro _
        rfl

theorem greedy_selection_witness :
    ¬ ((1 / 2 : ℚ) < 3 / 10)
      ∧ selectAction (updateQTable (fun _ => none) "u0_w100" 2 8 "u83_w16") (3 / 10) (1 / 2) 0
        "u0_w100" ∈ actions
      ∧ (∀ i ∈ actions,
          getQValue (updateQTable (fun _ => none) "u0_w100" 2 8 "u83_w16") "u0_w100" i
          ≤ getQValue (updateQTable (fun _ => none) "u0_w100" 2 8 "u83_w16") "u0_w100"
              (selectAction (updateQTable (fun _ => none) "u0_w100" 2 8 "u83_w16") (3 / 10)
                (1 / 2) 0 "u0_w100"))
      ∧ (∀ j, j < selectAction (updateQTable (fun _ => none) "u0_w100" 2 8 "u83_w16") (3 / 10)
            (1 / 2) 0 "u0_w100" →
          getQValue (updateQTable (fun _ => none) "u0_w100" 2 8 "u83_w16") "u0_w100" j
            < getQValue (updateQTable (fun _ => none) "u0_w100" 2 8 "u83_w16") "u0_w100"
                (selectAction (updateQTable (fun _ => none) "u0_w100" 2 8 "u83_w16") (3 / 10)
                  (1 / 2) 0 "u0_w100"))
      ∧ ((updateQTable (fun _ => none) "u0_w100" 2 8 "u83_w16") "u0_w100" = none →
          selectAction (updateQTable (fun _ => none) "u0_w100" 2 8 "u83_w16") (3 / 10)
            (1 / 2) 0 "u0_w100" = 0) :=
  ⟨by norm_num,
    greedy_selection (updateQTable (fun _ => none) "u0_w100" 2 8 "u83_w16") (3 / 10) (1 / 2) 0
      "u0_w100" (by norm_num)⟩

/-! ## Epsilon decay -/

theorem trainStep_epsilon (d : TrainDraws) (s : AppState) :
    (trainStep d s).epsilon = max 0.01 (s.epsilon * 0.995) := rfl

theorem runTraining_snoc (draws : List TrainDraws) (d : TrainDraws) :
    runTraining (draws ++ [d]) = trainStep d (runTraining draws) := by
  simp [runTraining, List.foldl_append]

theorem runTraining_epsilon_floor (draws : List TrainDraws) :
    0.01 ≤ (runTraining draws).epsilon := by
  induction draws using List.reverseRecOn with
  | nil =>
    show (0.01 : ℚ) ≤ 0.3
    norm_num
  | append_singleton ds d _ =>
    rw [runTraining_snoc, trainStep_epsilon]
    exact le_max_left _ _

/-- C7 (epsilon monotonic decay): each training step replaces epsilon by
`max (0.01, epsilon * 0.995)`; along every sequence of training steps from the initial state
(epsilon `0.3`), epsilon does not increase from one step to the next and is never below
`0.01`. -/
theorem epsilon_decay (s : AppState) (draws : List TrainDraws) (d : TrainDraws) :
    (trainStep d s).epsilon = max 0.01 (s.epsilon * 0.995)
      ∧ (runTraining []).epsilon = 0.3
      ∧ runTraining (draws ++ [d]) = trainStep d (runTraining draws)
      ∧ (runTraining (draws ++ [d])).epsilon ≤ (runTraining draws).epsilon
      ∧ 0.01 ≤ (runTraining draws).epsilon := by
  refine ⟨rfl, rfl, runTraining_snoc draws d, ?_, runTraining_epsilon_floor draws⟩
  rw [runTraining_snoc, trainStep_epsilon]
  have h := runTraining_epsilon_floor draws
  apply max_le h
  linarith

/-! ## Repeated updates -/

theorem repeatUpdate_other (state nextState : String) (action : Nat) (reward : ℚ)
    (qTable : QTable) (state2 : String) (action2 : Nat)
    (h : state2 ≠ state ∨ action2 ≠ action) (n : Nat) :
    getQValue (repeatUpdate state action reward nextState n qTable) state2 action2
      = getQValue qTable state2 action2 := by
  induction n with
  | zero => rfl
  | succ k ih =>
    rw [repeatUpdate, getQValue_update_other _ _ _ _ _ _ _ h, ih]

theorem repeatUpdate_succ_same (state nextState : String) (action : Nat) (reward : ℚ)
    (qTable : QTable) (n : Nat) :
    getQValue (repeatUpdate state action reward nextState (n + 1) qTable) state action
      = getQValue (repeatUpdate state action reward nextState n qTable) state action
        + 0.1 * (reward + 0.95
            * max (max (getQValue (repeatUpdate state action reward nextState n qTable)
                    nextState 0)
                  (getQValue (repeatUpdate state action reward nextState n qTable) nextState 1))
                (getQValue (repeatUpdate state action reward nextState n qTable) nextState 2)
          - getQValue (repeatUpdate state action reward nextState n qTable) state action) := by
  rw [repeatUpdate, getQValue_update_same, mathMax_actions]
  rfl

theorem geometric_converges (c : ℚ) (hc0 : 0 ≤ c) (hc1 : c < 1) (e : ℕ → ℚ)
    (h : ∀ n, |e (n + 1)| ≤ c * |e n|) :
    ∀ ε > 0, ∃ N, ∀ n ≥ N, |e n| < ε := by
  have hb : ∀ n, |e n| ≤ c ^ n * |e 0| := by
    intro n
    induction n with
    | zero => simp
    | succ k ih =>
      calc |e (k + 1)| ≤ c * |e k| := h k
        _ ≤ c * (c ^ k * |e 0|) := mul_le_mul_of_nonneg_left ih hc0
        _ = c ^ (k + 1) * |e 0| := by ring
  intro ε hε
  have hpos : 0 < ε / (|e 0| + 1) := div_pos hε (by positivity)
  obtain ⟨N, hN⟩ := exists_pow_lt_of_lt_one hpos hc1
  refine ⟨N, fun n hn => ?_⟩
  have h1 : c ^ n ≤ c ^ N := pow_le_pow_of_le_one hc0 hc1.le hn
  have h2 : c ^ N * (|e 0| + 1) < ε := (lt_div_iff₀ (by positivity)).mp hN
  have h3 : 0 ≤ c ^ N := pow_nonneg hc0 N
  calc |e n| ≤ c ^ n * |e 0| := hb n
    _ ≤ c ^ N * |e 0| := mul_le_mul_of_nonneg_right h1 (abs_nonneg _)
    _ ≤ c ^ N * (|e 0| + 1) := by nlinarith
    _ < ε := h2

theorem td_contract (v M r : ℚ) (h1 : v ≤ M) (h2 : M ≤ max v (20 * r)) :
    |v + 0.1 * (r + 0.95 * M - v) - 20 * r| ≤ 0.995 * |v - 20 * r| := by
  rcases le_total (20 * r) v with hv | hv
  · rw [max_eq_left hv] at h2
    have hM : M = v := le_antisymm h2 h1
    subst hM
    rw [abs_of_nonneg (by linarith), abs_of_nonneg (by linarith)]
    linarith
  · rw [max_eq_right hv] at h2
    rw [abs_of_nonpos (by linarith), abs_of_nonpos (by linarith)]
    linarith

theorem repeatUpdate_example_bound (n : Nat) :
    getQValue (repeatUpdate "u0_w100" 0 1 "u83_w16" n (fun _ => none)) "u0_w100" 0 ≤ 1 := by
  induction n with
  | zero => simp [repeatUpdate, getQValue]
  | succ k ih =>
    have hne : ("u83_w16" : String) ≠ "u0_w100" := by decide
    rw [repeatUpdate_succ_same,
      repeatUpdate_other _ _ _ _ _ "u83_w16" 0 (Or.inl hne),
      repeatUpdate_other _ _ _ _ _ "u83_w16" 1 (Or.inl hne),
      repeatUpdate_other _ _ _ _ _ "u83_w16" 2 (Or.inl hne)]
    have h0 : ∀ a2 : Nat, getQValue (fun _ => none) "u83_w16" a2 = 0 := fun _ => rfl
    simp only [h0, max_self]
    linarith

/-! ## Convergence of the Q-update -/

/-- C8, as stated, fails: from the empty table with `s = "u0_w100"`, `a = 0`, `r = 1` and
`s' = "u83_w16"`, the value of `(s, a)` never exceeds `1`, so it does not approach
`r / (1 - 0.95) = 20`. -/
theorem q_convergence_counterexample :
    ¬ ∀ ε > 0, ∃ N, ∀ n ≥ N,
      |getQValue (repeatUpdate "u0_w100" 0 1 "u83_w16" n (fun _ => none)) "u0_w100" 0
        - 1 / (1 - discountFactor)| < ε := by
  intro h
  obtain ⟨N, hN⟩ := h 1 one_pos
  have h1 := hN N le_rfl
  have h2 := repeatUpdate_example_bound N
  rw [abs_lt] at h1
  unfold discountFactor at h1
  norm_num at h1
  linarith [h1.1]

/-- C8, amended: for `a` in `{0, 1, 2}`, repeated `updateQTable (s, a, r, s')` drives the value
of `(s, a)` to `r / (1 - 0.95)` when `s' = s` and the values of the other two actions at `s`
are at most `r / (1 - 0.95)`; when `s' ≠ s` it drives it to
`r + 0.95 * max over a' of Q(s', a')`, the maximum being taken in the table before the first
update. -/
theorem q_convergence_amended (qTable : QTable) (s s' : String) (a : Nat) (r : ℚ)
    (ha : a ∈ actions) :
    (s' = s → (∀ a2 ∈ actions, a2 ≠ a → getQValue qTable s a2 ≤ r / (1 - discountFactor)) →
        ∀ ε > 0, ∃ N, ∀ n ≥ N,
          |getQValue (repeatUpdate s a r s' n qTable) s a - r / (1 - discountFactor)| < ε)
      ∧ (s' ≠ s →
        ∀ ε > 0, ∃ N, ∀ n ≥ N,
          |getQValue (repeatUpdate s a r s' n qTable) s a
            - (r + discountFactor * max (max (getQValue qTable s' 0) (getQValue qTable s' 1))
                (getQValue qTable s' 2))| < ε) := by
  have hlim : r / (1 - discountFactor) = 20 * r := by
    unfold discountFactor
    norm_num
    ring
  constructor
  · intro hs hother
    subst hs
    rw [hlim] at hother ⊢
    apply geometric_converges 0.995 (by norm_num) (by norm_num)
      (fun n => getQValue (repeatUpdate s' a r s' n qTable) s' a - 20 * r)
    intro n
    show |getQValue (repeatUpdate s' a r s' (n + 1) qTable) s' a - 20 * r|
      ≤ 0.995 * |getQValue (repeatUpdate s' a r s' n qTable) s' a - 20 * r|
    rw [repeatUpdate_succ_same]
    apply td_contract
    · have ha3 : a = 0 ∨ a = 1 ∨ a = 2 := by simpa [actions] using ha
      rcases ha3 with rfl | rfl | rfl
      · exact le_trans (le_max_left _ _) (le_max_left _ _)
      · exact le_trans (le_max_right _ _) (le_max_left _ _)
      · exact le_max_right _ _
    · have hle : ∀ a2 ∈ actions,
          getQValue (repeatUpdate s' a r s' n qTable) s' a2
            ≤ max (getQValue (repeatUpdate s' a r s' n qTable) s' a) (20 * r) := by
        intro a2 ha2
        by_cases h : a2 = a
        · subst h
          exact le_max_left _ _
        · rw [repeatUpdate_other _ _ _ _ _ _ _ (Or.inr h)]
          exact le_trans (hother a2 ha2 h) (le_max_right _ _)
      exact max_le (max_le (hle 0 (by simp [actions])) (hle 1 (by simp [actions])))
        (hle 2 (by simp [actions]))
  · intro hs
    apply geometric_converges 0.9 (by norm_num) (by norm_num)
      (fun n => getQValue (repeatUpdate s a r s' n qTable) s a
        - (r + discountFactor * max (max (getQValue qTable s' 0) (getQValue qTable s' 1))
            (getQValue qTable s' 2)))
    intro n
    show |getQValue (repeatUpdate s a r s' (n + 1) qTable) s a - _| ≤ 0.9 * |_|
    rw [repeatUpdate_succ_same,
      repeatUpdate_other _ _ _ _ _ s' 0 (Or.inl hs),
      repeatUpdate_other _ _ _ _ _ s' 1 (Or.inl hs),
      repeatUpdate_other _ _ _ _ _ s' 2 (Or.inl hs)]
    unfold discountFactor
    generalize getQValue (repeatUpdate s a r s' n qTable) s a = v
    generalize max (max (getQValue qTable s' 0) (getQValue qTable s' 1))
      (getQValue qTable s' 2) = M
    have heq : v + 0.1 * (r + 0.95 * M - v) - (r + 0.95 * M) = 0.9 * (v - (r + 0.95 * M)) := by
      ring
    rw [heq, abs_mul, abs_of_nonneg (by norm_num : (0 : ℚ) ≤ 0.9)]

theorem q_convergence_amended_witness :
    0 ∈ actions
      ∧ ∀ ε > 0, ∃ N, ∀ n ≥ N,
          |getQValue (repeatUpdate "u0_w100" 0 1 "u0_w100" n (fun _ => none)) "u0_w100" 0
            - 1 / (1 - discountFactor)| < ε :=
  ⟨by decide,
    (q_convergence_amended (fun _ => none) "u0_w100" "u0_w100" 0 1 (by decide)).1 rfl
      (by
        intro a2 _ _
        show (0 : ℚ) ≤ 1 / (1 - discountFactor)
        unfold discountFactor
        norm_num)⟩

/-! ## Manual add and remove -/

/-- C9 (manual-input rejection is a no-op): `handleRemoveStorage` with a non-numeric amount, an
amount `≤ 0` or an amount above the current `usedStorage`, and `handleAddStorage` with a
non-numeric amount or an amount `≤ 0`, return the state unchanged (so `usedStorage`,
`currentStorage`, `storageUnits` and `history` are unchanged and no log entry is written). -/
theorem rejection_noop (parseInt : String → Option Int) (time : String) (s : AppState) :
    ((parseInt s.requestValue = none
        ∨ ∃ v, parseInt s.requestValue = some v ∧ (v ≤ 0 ∨ v > (s.usedStorage : Int))) →
      handleRemoveStorage parseInt time s = s)
    ∧ ((parseInt s.requestValue = none ∨ ∃ v, parseInt s.requestValue = some v ∧ v ≤ 0) →
      handleAddStorage parseInt time s = s) := by
  constructor
  · rintro (hnone | ⟨v, hv, hbad⟩)
    · simp [handleRemoveStorage, hnone]
    · simp only [handleRemoveStorage, hv]
      rw [if_pos hbad]
  · rintro (hnone | ⟨v, hv, hbad⟩)
    · simp [handleAddStorage, hnone]
    · simp only [handleAddStorage, hv]
      rw [if_pos hbad]

theorem rejection_noop_witness :
    stateUsed20.usedStorage = 20
      ∧ parseIntDigits stateUsed20.requestValue = some 30
      ∧ handleRemoveStorage parseIntDigits "12:00:00" stateUsed20 = stateUsed20 :=
  ⟨rfl, by decide,
    (rejection_noop parseIntDigits "12:00:00" stateUsed20).1
      (Or.inr ⟨30, by decide, Or.inr (by decide)⟩)⟩

/-! ## Reset -/

theorem optimizeStorage_zero (baseStorage : Nat) :
    optimizeStorage baseStorage 0
      = { units := [{ id := 1, size := baseStorage, used := 0 }], total := baseStorage } := by
  rw [optimizeStorage_eq]
  rfl

theorem reset_eq (s : AppState) :
    reset s
      = { s with
          usedStorage := 0
          currentStorage := s.baseStorage
          storageUnits := [{ id := 1, size := s.baseStorage, used := 0 }]
          episode := 0
          totalReward := 0
          metrics := []
          history := []
          qTable := fun _ => none
          epsilon := 0.3
          isTraining := false } := by
  unfold reset
  rw [optimizeStorage_zero]

theorem stateBase80_eq :
    stateBase80
      = { initialState with
          baseStorage := 80
          currentStorage := 80
          storageUnits := [{ id := 1, size := 80, used := 0 }] } := by
  have hparse : parseIntDigits "80" = some 80 := by decide
  unfold stateBase80 handleBaseStorageChange
  rw [hparse]
  rfl

/-- C11, as stated, fails: after the base unit size is set to `80` (a value in `[10, 100]`),
`reset` leaves `currentStorage = 80` and `storageUnits = [{ id 1, size 80, used 0 }]`, not the
start values `50` and `[{ id 1, size 50, used 0 }]`. -/
theorem reset_counterexample :
    (10 ≤ stateBase80.baseStorage ∧ stateBase80.baseStorage ≤ 100)
      ∧ (reset stateBase80).currentStorage = 80
      ∧ (reset stateBase80).storageUnits = [{ id := 1, size := 80, used := 0 }]
      ∧ (reset stateBase80).currentStorage ≠ initialState.currentStorage
      ∧ (reset stateBase80).storageUnits ≠ initialState.storageUnits := by
  rw [reset_eq, stateBase80_eq]
  refine ⟨by decide, rfl, rfl, ?_, ?_⟩
  · show (80 : Nat) ≠ 50
    decide
  · show ([{ id := 1, size := 80, used := 0 }] : List StorageUnit)
      ≠ [{ id := 1, size := 50, used := 0 }]
    decide

/-- C11, amended: from every state, `reset` leaves `usedStorage = 0`, an empty Q-table, epsilon
`0.3`, episode `0`, total reward `0` and both logs empty, keeps the configured base unit size,
and sets `currentStorage` to that base unit size and `storageUnits` to one empty unit of that
size; these are the values at system start when the base unit size is `50`, and the capacity
equals its start value only then. -/
theorem reset_restores (s : AppState) :
    (s.baseStorage = 50 → reset s = { initialState with requestValue := s.requestValue })
      ∧ ((reset s).currentStorage = initialState.currentStorage ↔ s.baseStorage = 50)
      ∧ (reset s).usedStorage = 0
      ∧ (reset s).currentStorage = s.baseStorage
      ∧ (reset s).storageUnits = [{ id := 1, size := s.baseStorage, used := 0 }]
      ∧ (reset s).baseStorage = s.baseStorage
      ∧ (reset s).qTable = (fun _ => none)
      ∧ (reset s).epsilon = 0.3
      ∧ (reset s).episode = 0
      ∧ (reset s).totalReward = 0
      ∧ (reset s).metrics = []
      ∧ (reset s).history = [] := by
  rw [reset_eq]
  refine ⟨?_, Iff.rfl, rfl, rfl, rfl, rfl, rfl, rfl, rfl, rfl, rfl, rfl⟩
  intro h
  rw [h]
  rfl

theorem reset_restores_witness :
    stateUsed20.baseStorage = 50
      ∧ reset stateUsed20 = { initialState with requestValue := stateUsed20.requestValue } :=
  ⟨rfl, (reset_restores stateUsed20).1 rfl⟩

/-! ## Utilization of allocator output -/

theorem utilization_le (baseStorage used : Nat) :
    (used : ℚ) / ((optimizeStorage baseStorage used).total : ℚ) ≤ 5 / 6 := by
  rw [optimizeStorage_total]
  split
  · rename_i h
    have h0 : used = 0 := by omega
    subst h0
    norm_num
  · rename_i h
    have hpos : 0 < (6 * used + 4) / 5 := Nat.pos_of_ne_zero h
    have hle : 6 * used ≤ 5 * ((6 * used + 4) / 5) := by omega
    have hposq : (0 : ℚ) < (((6 * used + 4) / 5 : Nat) : ℚ) := by exact_mod_cast hpos
    have hleq : (6 : ℚ) * used ≤ 5 * (((6 * used + 4) / 5 : Nat) : ℚ) := by exact_mod_cast hle
    rw [div_le_iff₀ hposq]
    linarith

theorem utilization_ge (baseStorage used : Nat) (hused : 2 ≤ used) :
    (0.6 : ℚ) ≤ (used : ℚ) / ((optimizeStorage baseStorage used).total : ℚ) := by
  rw [optimizeStorage_total]
  have h : ¬ (6 * used + 4) / 5 = 0 := by omega
  rw [if_neg h]
  have hpos : 0 < (6 * used + 4) / 5 := Nat.pos_of_ne_zero h
  have hle : 3 * ((6 * used + 4) / 5) ≤ 5 * used := by omega
  have hposq : (0 : ℚ) < (((6 * used + 4) / 5 : Nat) : ℚ) := by exact_mod_cast hpos
  have hleq : (3 : ℚ) * (((6 * used + 4) / 5 : Nat) : ℚ) ≤ 5 * used := by exact_mod_cast hle
  rw [le_div_iff₀ hposq]
  norm_num
  linarith

theorem calculateReward_no_over (used total prevTotal : ℚ) (h : ¬ used / total > 0.95) :
    calculateReward used total prevTotal
      = (if 0.6 ≤ used / total ∧ used / total ≤ 0.9 then 10
          else if used / total < 0.3 then -15 else 0)
        - 5 * (total - used) / total
        - (if total > prevTotal then 2 else 0)
        + (if total < prevTotal ∧ used / total > 0.5 then 5 else 0) := by
  unfold calculateReward
  simp only [ge_iff_le, gt_iff_lt] at h ⊢
  split_ifs <;> ring

/-- C12 (allocator output pins the reward bracket): for `used ≥ 2` and
`total = optimizeStorage (used).total`, `0.6 ≤ used / total ≤ 5 / 6`, so the base component of
`calculateReward (used, total, prevTotal)` is `+10`; for every `used ≥ 0` the utilization is at
most `5 / 6`, so the `-10` branch for utilization above `0.95` is never taken on an allocation
produced by `optimizeStorage`. -/
theorem allocator_pins_reward (baseStorage used : Nat) (prevTotal : ℚ) :
    (2 ≤ used →
        (0.6 : ℚ) ≤ (used : ℚ) / ((optimizeStorage baseStorage used).total : ℚ)
        ∧ (used : ℚ) / ((optimizeStorage baseStorage used).total : ℚ) ≤ 5 / 6
        ∧ calculateReward used (optimizeStorage baseStorage used).total prevTotal
            = 10
              - 5 * (((optimizeStorage baseStorage used).total : ℚ) - used)
                  / ((optimizeStorage baseStorage used).total : ℚ)
              - (if ((optimizeStorage baseStorage used).total : ℚ) > prevTotal then 2 else 0)
              + (if ((optimizeStorage baseStorage used).total : ℚ) < prevTotal
                    ∧ (used : ℚ) / ((optimizeStorage baseStorage used).total : ℚ) > 0.5
                  then 5 else 0))
      ∧ (used : ℚ) / ((optimizeStorage baseStorage used).total : ℚ) ≤ 5 / 6
      ∧ ¬ ((used : ℚ) / ((optimizeStorage baseStorage used).total : ℚ) > 0.95)
      ∧ (0 < used ∨ 0 < baseStorage → 0 < (optimizeStorage baseStorage used).total)
      ∧ calculateReward used (optimizeStorage baseStorage used).total prevTotal
          = (if 0.6 ≤ (used : ℚ) / ((optimizeStorage baseStorage used).total : ℚ)
                ∧ (used : ℚ) / ((optimizeStorage baseStorage used).total : ℚ) ≤ 0.9 then 10
              else if (used : ℚ) / ((optimizeStorage baseStorage used).total : ℚ) < 0.3
                then -15 else 0)
            - 5 * (((optimizeStorage baseStorage used).total : ℚ) - used)
                / ((optimizeStorage baseStorage used).total : ℚ)
            - (if ((optimizeStorage baseStorage used).total : ℚ) > prevTotal then 2 else 0)
            + (if ((optimizeStorage baseStorage used).total : ℚ) < prevTotal
                  ∧ (used : ℚ) / ((optimizeStorage baseStorage used).total : ℚ) > 0.5
                then 5 else 0) := by
  have hle := utilization_le baseStorage used
  have hno : ¬ ((used : ℚ) / ((optimizeStorage baseStorage used).total : ℚ) > 0.95) := by
    intro h
    norm_num at h
    linarith
  refine ⟨?_, hle, hno, ?_, calculateReward_no_over _ _ _ hno⟩
  · intro hused
    have hge := utilization_ge baseStorage used hused
    refine ⟨hge, hle, ?_⟩
    rw [calculateReward_no_over _ _ _ hno, if_pos ⟨hge, by norm_num; linarith⟩]
  · intro h
    rw [optimizeStorage_total]
    split <;> omega

theorem allocator_pins_reward_witness :
    2 ≤ 80
      ∧ (optimizeStorage 50 80).total = 96
      ∧ (0.6 : ℚ) ≤ ((80 : Nat) : ℚ) / ((optimizeStorage 50 80).total : ℚ)
      ∧ ((80 : Nat) : ℚ) / ((optimizeStorage 50 80).total : ℚ) ≤ 5 / 6
      ∧ calculateReward (80 : Nat) (optimizeStorage 50 80).total 50
          = 10
            - 5 * (((optimizeStorage 50 80).total : ℚ) - (80 : Nat))
                / ((optimizeStorage 50 80).total : ℚ)
            - (if ((optimizeStorage 50 80).total : ℚ) > 50 then 2 else 0)
            + (if ((optimizeStorage 50 80).total : ℚ) < 50
                  ∧ ((80 : Nat) : ℚ) / ((optimizeStorage 50 80).total : ℚ) > 0.5
                then 5 else 0) :=
  ⟨by decide, by rw [optimizeStorage_80], (allocator_pins_reward 50 80 50).1 (by decide)⟩

end StorageOptimizer
